import Mathlib

/-!
Verification of the PPTX theme-color rewriting engine of this repository
(`webex_convert.py` and the parts of `pptxutil/__init__.py` it mirrors).

The engine parses XML parts of a PPTX ZIP package with lxml, resolves the
theme's color scheme to a map from slot names to RGB strings, and rewrites
every slide's scheme-color references (`a:schemeClr`) into fixed colors
(`a:srgbClr`).

The embedding below models parsed XML documents as finite element trees
(lxml's view: an element has a tag of the form `{uri}local`, an ordered
attribute list, and an ordered list of children).  Documents stand for
their parsed byte contents; the code paths that return the input bytes
unchanged are modelled as returning the input document unchanged.
-/

namespace PptxBot

/-! ## Characters and small string utilities

lxml qualified tags are strings of the form `{uri}local`.  The brace
characters are built from their code points. -/

def lbrace : Char := Char.ofNat 123

def rbrace : Char := Char.ofNat 125

/-- The lxml qualified tag `{uri}local`, exactly the string the code builds
with `ns = '\x7b' + nsmap['a'] + '\x7d'` and f-strings like `f'(ns)solidFill'`. -/
def nsTag (uri loc : String) : String := ⟨lbrace :: uri.data ++ rbrace :: loc.data⟩

/-- The segment of a character list after its last `rbrace` (the whole list
if it has none). -/
def localSeg (l : List Char) : List Char :=
  (l.reverse.takeWhile (fun c => c ≠ rbrace)).reverse

/-- `tag.split(chr(125))[-1]` of `read_color_map`: the local name of an lxml
qualified tag. -/
def localName (s : String) : String := ⟨localSeg s.data⟩

/-- The segment of a string after its last `/` — Python's
`ty.split(chr(47))[-1]`, used on relationship `Type` attributes. -/
def lastSlashSeg (s : String) : String :=
  ⟨(s.data.reverse.takeWhile (fun c => c ≠ '/')).reverse⟩

/-- One step of Python's `str.replace` scan, with explicit fuel so that the
kernel can evaluate it.  The pattern is `p :: ps` (nonempty).  Fuel at least
the length of the list makes the fuel case unreachable. -/
def replFuel (p : Char) (ps : List Char) (rep : List Char) : Nat → List Char → List Char
  | _, [] => []
  | 0, l => l
  | fuel + 1, c :: cs =>
    if (p :: ps).isPrefixOf (c :: cs) then rep ++ replFuel p ps rep fuel (cs.drop ps.length)
    else c :: replFuel p ps rep fuel cs

/-- Python's `s.replace(pat, rep)` for a nonempty pattern (the code only ever
calls it as `tag.replace('schemeClr', 'srgbClr')`). -/
def pyReplace (s pat rep : String) : String :=
  match pat.data with
  | [] => s
  | p :: ps => ⟨replFuel p ps rep.data s.data.length s.data⟩

/-- Python dict lookup `d.get(k)` on an association list representing the
dict (no duplicate keys arise in the code's dicts). -/
def lookupA {α : Type} (l : List (String × α)) (k : String) : Option α :=
  match l with
  | [] => none
  | (k', v) :: rest => if k' == k then some v else lookupA rest k

/-- Python dict assignment `d[k] = v`: overwrites in place, appends new keys
at the end (Python dicts preserve insertion order). -/
def dictInsert {α : Type} (l : List (String × α)) (k : String) (v : α) :
    List (String × α) :=
  match l with
  | [] => [(k, v)]
  | (k', v') :: rest =>
    if k' == k then (k', v) :: rest else (k', v') :: dictInsert rest k v

/-! ## The XML element tree

Mutual inductive so that all functions below are structurally recursive and
kernel-evaluable.  `text` models bs4 navigable strings (lxml keeps text out
of the child list; the lxml-modelled operations skip text nodes exactly as
lxml's element iteration does). -/

mutual
inductive XML where
  | text (s : String)
  | elem (tag : String) (attrs : List (String × String)) (children : XMLList)
deriving DecidableEq
inductive XMLList where
  | nil
  | cons (hd : XML) (tl : XMLList)
deriving DecidableEq
end

namespace XMLList

def toList : XMLList → List XML
  | .nil => []
  | .cons c cs => c :: toList cs

def xAppend : XMLList → XMLList → XMLList
  | .nil, r => r
  | .cons c cs, r => .cons c (xAppend cs r)

def xAny (p : XML → Bool) : XMLList → Bool
  | .nil => false
  | .cons c cs => p c || xAny p cs

def xAll (p : XML → Bool) : XMLList → Bool
  | .nil => true
  | .cons c cs => p c && xAll p cs

def xMap (f : XML → XML) : XMLList → XMLList
  | .nil => .nil
  | .cons c cs => .cons (f c) (xMap f cs)

end XMLList

/-- `elem.tag == t` for elements; false for text nodes. -/
def isTag (t : String) : XML → Bool
  | .text _ => false
  | .elem tg _ _ => tg == t

/-- A parsed XML document: the root element together with the namespace
prefix map `root.nsmap` that lxml exposes on it. -/
structure SlideDoc where
  nsmap : List (String × String)
  root : XML
deriving DecidableEq

/-! ## The color map (`read_color_map` result)

`rgb_map[tag] = color[0].get('val')` stores `None` when the slot's first
child has no `val` attribute, so values are `Option String`. -/

abbrev ColorMap := List (String × Option String)

/-- `color_map.get(name)`: `none` both for a missing key and a stored `None`. -/
def lookupColor (cm : ColorMap) (k : String) : Option String :=
  match lookupA cm k with
  | some v => v
  | none => none

/-- `PRE_MAP` of `webex_convert.py`: the legacy scheme-color aliases. -/
def PRE_MAP : List (String × String) :=
  [("bg1", "lt1"), ("tx1", "dk1"), ("bg2", "lt2"), ("tx2", "dk2")]

/-- `PRE_MAP.get(value, value)`: the unconditional legacy-alias remap. -/
def preMapApply (v : String) : String := (lookupA PRE_MAP v).getD v

/-- `color_map.get(PRE_MAP.get(value, value))`: how `convert` resolves a
scheme-color reference's `val` attribute against the color map. -/
def resolveRef (cm : ColorMap) (v : String) : Option String :=
  lookupColor cm (preMapApply v)

/-! ## The slide rewriter `webex_convert.convert` -/

/-- The tag `{A}schemeClr` for drawing namespace `A`. -/
def scTag (A : String) : String := nsTag A "schemeClr"

/-- The synthesized default fill: `solidFill` with a `schemeClr val='tx1'`
child, as built by the two `etree.SubElement` calls. -/
def fillNode (A : String) : XML :=
  .elem (nsTag A "solidFill") []
    (.cons (.elem (scTag A) [("val", "tx1")] .nil) .nil)

/-- Whether an `rPr` node qualifies for fill synthesis: it is an `a:rPr`
element, has no direct `a:solidFill` child, and its parent has an `a:t`
child (`hT`). -/
def synthNeeds (A : String) (hT : Bool) : XML → Bool
  | .text _ => false
  | .elem tg _ ccs =>
    tg == nsTag A "rPr" && !(XMLList.xAny (isTag (nsTag A "solidFill")) ccs) && hT

/-- Append the synthesized fill to an element's children
(`etree.SubElement(rpr, ...)` appends at the end). -/
def appendFill (A : String) : XML → XML
  | .text s => .text s
  | .elem t a cs => .elem t a (XMLList.xAppend cs (.cons (fillNode A) .nil))

mutual
/-- First pass of `convert`: for every element, append a default fill to
each child `a:rPr` that lacks a direct `a:solidFill` child, provided the
element (the rPr's parent) has an `a:t` child.  The root element itself is
never anyone's child, matching `rpr.xpath(chr(46) ++ chr(46) ++ "/a:t")`
returning nothing for a root-level `rPr`. -/
def synthX (A : String) : XML → XML
  | .text s => .text s
  | .elem t a cs => .elem t a (synthKids A (XMLList.xAny (isTag (nsTag A "t")) cs) cs)

def synthKids (A : String) (hT : Bool) : XMLList → XMLList
  | .nil => .nil
  | .cons c cs =>
    .cons (if synthNeeds A hT c then appendFill A (synthX A c) else synthX A c)
      (synthKids A hT cs)
end

/-- The per-child action of `synthKids`. -/
def synthStep (A : String) (hT : Bool) (c : XML) : XML :=
  if synthNeeds A hT c then appendFill A (synthX A c) else synthX A c

/-- Second pass of `convert`, action on one element whose children are
already rewritten: a `schemeClr` element whose `val` attribute resolves
through `PRE_MAP` and the color map gets its tag replaced
(`tag.replace('schemeClr', 'srgbClr')`) and its `val` attribute set to the
resolved RGB string; otherwise (`rgb is None`, or no `val`) it is left
untouched (`continue`). -/
def rwElem (A : String) (cm : ColorMap) (t : String) (a : List (String × String))
    (cs : XMLList) : XML :=
  if t == scTag A then
    match lookupA a "val" with
    | none => .elem t a cs
    | some v =>
      match resolveRef cm v with
      | none => .elem t a cs
      | some rgb =>
        .elem (pyReplace t "schemeClr" "srgbClr")
          (a.map fun p => if p.1 == "val" then (p.1, rgb) else p) cs
  else .elem t a cs

mutual
/-- Second pass of `convert` over the whole tree: rewrite every
`a:schemeClr` element (all of `root.xpath('//a:schemeClr')`, the
synthesized ones included). -/
def rwX (A : String) (cm : ColorMap) : XML → XML
  | .text s => .text s
  | .elem t a cs => rwElem A cm t a (rwL A cm cs)

def rwL (A : String) (cm : ColorMap) : XMLList → XMLList
  | .nil => .nil
  | .cons c cs => .cons (rwX A cm c) (rwL A cm cs)
end

mutual
/-- Whether some element with the given tag occurs in the tree (the element
itself included), as `root.xpath('//a:schemeClr')` being nonempty. -/
def hasTagX (tg : String) : XML → Bool
  | .text _ => false
  | .elem t _ cs => t == tg || hasTagL tg cs

def hasTagL (tg : String) : XMLList → Bool
  | .nil => false
  | .cons c cs => hasTagX tg c || hasTagL tg cs
end

/-- `webex_convert.convert(content, color_map)`: returns the content
unchanged when the root declares no `a` namespace, or when after fill
synthesis the document contains no `a:schemeClr` element; otherwise the
synthesized-and-rewritten tree. -/
def convert (content : SlideDoc) (color_map : ColorMap) : SlideDoc :=
  match lookupA content.nsmap "a" with
  | none => content
  | some A =>
    let root1 := synthX A content.root
    if hasTagX (scTag A) root1 then ⟨content.nsmap, rwX A color_map root1⟩
    else content

end PptxBot

namespace PptxBot

/-- The tag produced by `target.tag.replace('schemeClr', 'srgbClr')` on a
`schemeClr` element. -/
def rewrittenScTag (A : String) : String := pyReplace (scTag A) "schemeClr" "srgbClr"

/-! ## String lemmas: the local name of rewritten tags -/

theorem takeWhile_append_all {p : Char → Bool} :
    ∀ {l₁ l₂ : List Char}, (∀ c ∈ l₁, p c = true) →
      List.takeWhile p (l₁ ++ l₂) = l₁ ++ List.takeWhile p l₂ := by
  intro l₁
  induction l₁ with
  | nil => intro l₂ _; rfl
  | cons c cs ih =>
    intro l₂ h
    simp only [List.cons_append, List.takeWhile_cons, h c (by simp)]
    rw [ih (fun x hx => h x (by simp [hx]))]
    simp

theorem localSeg_append_brace {x : List Char} (l : List Char) (hx : rbrace ∉ x) :
    localSeg (l ++ rbrace :: x) = x := by
  unfold localSeg
  rw [List.reverse_append, List.reverse_cons]
  rw [List.append_assoc]
  rw [takeWhile_append_all (by
    intro c hc
    simp only [decide_eq_true_eq]
    intro he
    exact hx (by simpa [he] using (List.mem_reverse).1 hc))]
  have : List.takeWhile (fun c => decide (c ≠ rbrace)) ([rbrace] ++ l.reverse) = [] := by
    simp [List.takeWhile_cons]
  rw [this, List.append_nil, List.reverse_reverse]

theorem string_mk_data (s : String) : String.mk s.data = s := rfl

theorem nsTag_data (A loc : String) :
    (nsTag A loc).data = lbrace :: A.data ++ rbrace :: loc.data := rfl

theorem localName_nsTag (A loc : String) (h : rbrace ∉ loc.data) :
    localName (nsTag A loc) = loc := by
  unfold localName
  rw [nsTag_data, show lbrace :: A.data ++ rbrace :: loc.data =
    (lbrace :: A.data) ++ rbrace :: loc.data from rfl]
  rw [localSeg_append_brace _ h, string_mk_data]

theorem replFuel_self (p : Char) (ps rep : List Char) (f : Nat) (h : 1 ≤ f) :
    replFuel p ps rep f (p :: ps) = rep := by
  match f, h with
  | f + 1, _ =>
    have hp : (p :: ps).isPrefixOf (p :: ps) = true :=
      List.isPrefixOf_iff_prefix.2 (List.prefix_refl _)
    simp only [replFuel, hp, if_true]
    rw [List.drop_length]
    simp [replFuel]

theorem replFuel_ends (p : Char) (ps rep : List Char) (hnb : rbrace ∉ p :: ps) :
    ∀ (fuel : Nat) (l₁ : List Char), (l₁ ++ rbrace :: p :: ps).length ≤ fuel →
      ∃ pre, replFuel p ps rep fuel (l₁ ++ rbrace :: p :: ps) = pre ++ rbrace :: rep := by
  intro fuel
  induction fuel with
  | zero => intro l₁ h; simp at h
  | succ f ih =>
    intro l₁ hfuel
    match l₁ with
    | [] =>
      refine ⟨[], ?_⟩
      simp only [List.nil_append, replFuel]
      have hpr : (p :: ps).isPrefixOf (rbrace :: p :: ps) = false := by
        simp only [List.isPrefixOf]
        have : (p == rbrace) = false := by
          simp only [beq_eq_false_iff_ne]
          intro he; exact hnb (by simp [he])
        simp [this]
      rw [hpr]
      simp only [Bool.false_eq_true, if_false]
      rw [replFuel_self p ps rep f (by simp at hfuel; omega)]
    | c :: l₁' =>
      simp only [List.cons_append, replFuel, List.append_eq]
      by_cases hb : (p :: ps).isPrefixOf (c :: (l₁' ++ rbrace :: p :: ps)) = true
      · rw [hb]
        simp only [if_true]
        have hge : ps.length ≤ l₁'.length := by
          by_contra hlt
          push_neg at hlt
          have hsub := (List.isPrefixOf_iff_prefix).1 hb
          obtain ⟨t, ht⟩ := hsub
          have htake : (c :: l₁') ++ [rbrace] = (p :: ps).take ((c :: l₁').length + 1) := by
            have h1 : ((c :: l₁') ++ rbrace :: p :: ps).take ((c :: l₁').length + 1)
                = (c :: l₁') ++ [rbrace] := by
              rw [show (c :: l₁').length + 1 = (c :: l₁').length + 1 from rfl]
              rw [List.take_append]
              simp
            have h2 : ((p :: ps) ++ t).take ((c :: l₁').length + 1)
                = (p :: ps).take ((c :: l₁').length + 1) := by
              apply List.take_append_of_le_length
              simp only [List.length_cons]
              omega
            rw [← h1, show (c :: l₁') ++ rbrace :: p :: ps = (p :: ps) ++ t from ht.symm, h2]
          have hmem : rbrace ∈ (p :: ps).take ((c :: l₁').length + 1) := by
            rw [← htake]; simp
          exact hnb (List.take_subset _ _ hmem)
        rw [List.drop_append_of_le_length hge]
        obtain ⟨pre', hp'⟩ := ih (l₁'.drop ps.length) (by
          simp only [List.length_append, List.length_drop, List.length_cons] at *
          omega)
        refine ⟨rep ++ pre', ?_⟩
        rw [hp', List.append_assoc]

      · simp only [Bool.not_eq_true] at hb
        rw [hb]
        simp only [Bool.false_eq_true, if_false]
        obtain ⟨pre', hp'⟩ := ih l₁' (by
          simp only [List.length_append, List.length_cons] at *
          omega)
        refine ⟨c :: pre', ?_⟩
        rw [hp', List.cons_append]

theorem rewrittenScTag_eq (A : String) :
    rewrittenScTag A =
      ⟨replFuel 's' "chemeClr".data "srgbClr".data (scTag A).data.length (scTag A).data⟩ := rfl

theorem localName_rewrittenScTag (A : String) :
    localName (rewrittenScTag A) = "srgbClr" := by
  rw [rewrittenScTag_eq]
  have hsc : (scTag A).data = (lbrace :: A.data) ++ rbrace :: 's' :: "chemeClr".data := by
    rw [show scTag A = nsTag A "schemeClr" from rfl, nsTag_data]
  obtain ⟨pre, hp⟩ := replFuel_ends 's' "chemeClr".data "srgbClr".data (by decide)
    ((scTag A).data.length) (lbrace :: A.data) (by rw [hsc])
  unfold localName
  rw [show (String.mk (replFuel 's' "chemeClr".data "srgbClr".data
      (scTag A).data.length (scTag A).data)).data
    = replFuel 's' "chemeClr".data "srgbClr".data (scTag A).data.length (scTag A).data from rfl]
  rw [show replFuel 's' "chemeClr".data "srgbClr".data (scTag A).data.length (scTag A).data
    = replFuel 's' "chemeClr".data "srgbClr".data (scTag A).data.length
        ((lbrace :: A.data) ++ rbrace :: 's' :: "chemeClr".data) from by rw [← hsc]]
  rw [hp, localSeg_append_brace _ (by decide)]

theorem ne_of_localName {s t : String} (h : localName s ≠ localName t) : s ≠ t :=
  fun he => h (he ▸ rfl)

/-- The rewritten tag is never again the scheme-color tag. -/
theorem rewrittenScTag_ne_scTag (A : String) : rewrittenScTag A ≠ scTag A := by
  apply ne_of_localName
  rw [localName_rewrittenScTag, show scTag A = nsTag A "schemeClr" from rfl,
    localName_nsTag A "schemeClr" (by decide)]
  decide

theorem rewrittenScTag_ne_nsTag (A : String) (loc : String) (hb : rbrace ∉ loc.data)
    (hl : loc ≠ "srgbClr") : rewrittenScTag A ≠ nsTag A loc := by
  apply ne_of_localName
  rw [localName_rewrittenScTag, localName_nsTag A loc hb]
  exact fun he => hl he.symm

theorem nsTag_ne_nsTag (A : String) {l₁ l₂ : String} (h1 : rbrace ∉ l₁.data)
    (h2 : rbrace ∉ l₂.data) (h : l₁ ≠ l₂) : nsTag A l₁ ≠ nsTag A l₂ := by
  apply ne_of_localName
  rw [localName_nsTag A l₁ h1, localName_nsTag A l₂ h2]
  exact h

end PptxBot

namespace PptxBot

/-! ## Mutual induction over the element tree -/

theorem xml_mutual_ind {P : XML → Prop} {Q : XMLList → Prop}
    (h1 : ∀ s, P (.text s))
    (h2 : ∀ t a cs, Q cs → P (.elem t a cs))
    (h3 : Q .nil)
    (h4 : ∀ c cs, P c → Q cs → Q (.cons c cs)) :
    (∀ x, P x) ∧ (∀ cs, Q cs) :=
  ⟨fun x => XML.rec h1 h2 h3 h4 x, fun cs => XMLList.rec h1 h2 h3 h4 cs⟩

theorem xlist_ind {Q : XMLList → Prop} (nil : Q .nil)
    (cons : ∀ c cs, Q cs → Q (.cons c cs)) : ∀ cs, Q cs :=
  (xml_mutual_ind (P := fun _ => True) (fun _ => trivial) (fun _ _ _ _ => trivial) nil
    (fun c cs _ hq => cons c cs hq)).2

/-! ## Basic lemmas about the list operations -/

theorem xAny_xAppend (p : XML → Bool) (l r : XMLList) :
    XMLList.xAny p (XMLList.xAppend l r) = (XMLList.xAny p l || XMLList.xAny p r) := by
  induction l using xlist_ind with
  | nil => simp [XMLList.xAppend, XMLList.xAny]
  | cons c cs ih => simp [XMLList.xAppend, XMLList.xAny, ih, Bool.or_assoc]

theorem xAll_xAppend (p : XML → Bool) (l r : XMLList) :
    XMLList.xAll p (XMLList.xAppend l r) = (XMLList.xAll p l && XMLList.xAll p r) := by
  induction l using xlist_ind with
  | nil => simp [XMLList.xAppend, XMLList.xAll]
  | cons c cs ih => simp [XMLList.xAppend, XMLList.xAll, ih, Bool.and_assoc]

theorem xAny_xMap (p : XML → Bool) (f : XML → XML) (l : XMLList) :
    XMLList.xAny p (XMLList.xMap f l) = XMLList.xAny (fun c => p (f c)) l := by
  induction l using xlist_ind with
  | nil => rfl
  | cons c cs ih => simp [XMLList.xMap, XMLList.xAny, ih]

theorem xAll_xMap (p : XML → Bool) (f : XML → XML) (l : XMLList) :
    XMLList.xAll p (XMLList.xMap f l) = XMLList.xAll (fun c => p (f c)) l := by
  induction l using xlist_ind with
  | nil => rfl
  | cons c cs ih => simp [XMLList.xMap, XMLList.xAll, ih]

theorem xAny_congr {p q : XML → Bool} (h : ∀ c, p c = q c) (l : XMLList) :
    XMLList.xAny p l = XMLList.xAny q l := by
  induction l using xlist_ind with
  | nil => rfl
  | cons c cs ih => simp [XMLList.xAny, ih, h c]

theorem xAll_of_pointwise {p : XML → Bool} (h : ∀ c, p c = true) (l : XMLList) :
    XMLList.xAll p l = true := by
  induction l using xlist_ind with
  | nil => rfl
  | cons c cs ih => simp [XMLList.xAll, ih, h c]

theorem xMap_xMap (f g : XML → XML) (l : XMLList) :
    XMLList.xMap f (XMLList.xMap g l) = XMLList.xMap (fun c => f (g c)) l := by
  induction l using xlist_ind with
  | nil => rfl
  | cons c cs ih => simp [XMLList.xMap, ih]

theorem synthKids_eq_xMap (A : String) (hT : Bool) (cs : XMLList) :
    synthKids A hT cs = XMLList.xMap (synthStep A hT) cs := by
  induction cs using xlist_ind with
  | nil => rfl
  | cons c l ih =>
    simp only [synthKids, XMLList.xMap, synthStep]
    rw [ih]

theorem rwL_eq_xMap (A : String) (cm : ColorMap) (cs : XMLList) :
    rwL A cm cs = XMLList.xMap (rwX A cm) cs := by
  induction cs using xlist_ind with
  | nil => rfl
  | cons c l ih =>
    simp only [rwL, XMLList.xMap]
    rw [ih]

theorem rwL_xAppend (A : String) (cm : ColorMap) (l r : XMLList) :
    rwL A cm (XMLList.xAppend l r) = XMLList.xAppend (rwL A cm l) (rwL A cm r) := by
  induction l using xlist_ind with
  | nil => rfl
  | cons c cs ih =>
    simp only [XMLList.xAppend, rwL]
    rw [ih]

/-! ## Tag preservation -/

theorem isTag_appendFill (A t : String) (c : XML) :
    isTag t (appendFill A c) = isTag t c := by
  cases c <;> rfl

theorem isTag_synthX (A t : String) (c : XML) :
    isTag t (synthX A c) = isTag t c := by
  cases c <;> rfl

theorem isTag_synthStep (A t : String) (hT : Bool) (c : XML) :
    isTag t (synthStep A hT c) = isTag t c := by
  unfold synthStep
  split
  · rw [isTag_appendFill, isTag_synthX]
  · rw [isTag_synthX]

theorem xAny_isTag_synthKids (A t : String) (hT : Bool) (cs : XMLList) :
    XMLList.xAny (isTag t) (synthKids A hT cs) = XMLList.xAny (isTag t) cs := by
  rw [synthKids_eq_xMap, xAny_xMap]
  exact xAny_congr (fun c => isTag_synthStep A t hT c) cs

theorem scTag_ne_nsTag (A loc : String) (hb : rbrace ∉ loc.data)
    (hl : loc ≠ "schemeClr") : scTag A ≠ nsTag A loc :=
  nsTag_ne_nsTag A (by decide) hb (fun he => hl he.symm)

/-- The tags other than `schemeClr` and `srgbClr` that the rewrite pass can
neither produce nor consume are preserved nodewise. -/
theorem isTag_rwX (A loc : String) (cm : ColorMap) (hb : rbrace ∉ loc.data)
    (hsc : loc ≠ "schemeClr") (hsr : loc ≠ "srgbClr") (c : XML) :
    isTag (nsTag A loc) (rwX A cm c) = isTag (nsTag A loc) c := by
  cases c with
  | text s => rfl
  | elem t a cs =>
    show isTag (nsTag A loc) (rwElem A cm t a (rwL A cm cs)) = _
    unfold rwElem
    by_cases ht : (t == scTag A) = true
    · have hteq : t = scTag A := by simpa using ht
      rw [if_pos ht]
      split
      · rfl
      · split
        · rfl
        · show (pyReplace t "schemeClr" "srgbClr" == nsTag A loc) = (t == nsTag A loc)
          rw [hteq]
          rw [show pyReplace (scTag A) "schemeClr" "srgbClr" = rewrittenScTag A from rfl]
          rw [beq_eq_false_iff_ne.2 (rewrittenScTag_ne_nsTag A loc hb hsr),
            beq_eq_false_iff_ne.2 (scTag_ne_nsTag A loc hb hsc)]
    · rw [if_neg ht]
      rfl

end PptxBot

namespace PptxBot

/-! ## Branch characterizations of the rewrite step -/

theorem rwElem_not_sc {A t : String} (cm : ColorMap) (a : List (String × String))
    (cs : XMLList) (h : (t == scTag A) = false) :
    rwElem A cm t a cs = .elem t a cs := by
  simp [rwElem, h]

theorem rwElem_no_val {A t : String} (cm : ColorMap) (a : List (String × String))
    (cs : XMLList) (ht : (t == scTag A) = true) (hv : lookupA a "val" = none) :
    rwElem A cm t a cs = .elem t a cs := by
  simp [rwElem, ht, hv]

theorem rwElem_unresolved {A t v : String} (cm : ColorMap) (a : List (String × String))
    (cs : XMLList) (ht : (t == scTag A) = true) (hv : lookupA a "val" = some v)
    (hr : resolveRef cm v = none) :
    rwElem A cm t a cs = .elem t a cs := by
  simp [rwElem, ht, hv, hr]

theorem rwElem_resolved {A t v rgb : String} (cm : ColorMap) (a : List (String × String))
    (cs : XMLList) (ht : (t == scTag A) = true) (hv : lookupA a "val" = some v)
    (hr : resolveRef cm v = some rgb) :
    rwElem A cm t a cs =
      .elem (rewrittenScTag A) (a.map fun p => if p.1 == "val" then (p.1, rgb) else p) cs := by
  have hteq : t = scTag A := by simpa using ht
  subst hteq
  simp [rwElem, hv, hr]
  rfl

theorem rwX_elem_eq (A : String) (cm : ColorMap) (t : String)
    (a : List (String × String)) (cs : XMLList) :
    rwX A cm (.elem t a cs) = rwElem A cm t a (rwL A cm cs) := rfl

/-! ## Facts about the synthesized fill node -/

theorem isTag_fillNode_sf (A : String) :
    isTag (nsTag A "solidFill") (fillNode A) = true := by
  show (nsTag A "solidFill" == nsTag A "solidFill") = true
  simp

theorem isTag_fillNode_t (A : String) :
    isTag (nsTag A "t") (fillNode A) = false := by
  show (nsTag A "solidFill" == nsTag A "t") = false
  exact beq_eq_false_iff_ne.2 (nsTag_ne_nsTag A (by decide) (by decide) (by decide))

theorem synthNeeds_fillNode (A : String) (hT : Bool) :
    synthNeeds A hT (fillNode A) = false := by
  show (nsTag A "solidFill" == nsTag A "rPr" && _ && hT) = false
  rw [beq_eq_false_iff_ne.2 (nsTag_ne_nsTag A (by decide) (by decide) (by decide))]
  simp

/-! ## The fill-synthesis invariant

`noNeedyX` says that nowhere in the tree is there still a child `a:rPr`
qualifying for fill synthesis, i.e. the first pass of `convert` would find
nothing to do. -/

mutual
def noNeedyX (A : String) : XML → Bool
  | .text _ => true
  | .elem _ _ cs =>
    XMLList.xAll (fun c => !synthNeeds A (XMLList.xAny (isTag (nsTag A "t")) cs) c) cs
      && noNeedyL A cs

def noNeedyL (A : String) : XMLList → Bool
  | .nil => true
  | .cons c cs => noNeedyX A c && noNeedyL A cs
end

theorem xAll_congr {p q : XML → Bool} (h : ∀ c, p c = q c) (l : XMLList) :
    XMLList.xAll p l = XMLList.xAll q l := by
  induction l using xlist_ind with
  | nil => rfl
  | cons c cs ih => simp [XMLList.xAll, ih, h c]

theorem noNeedyL_xAppend (A : String) (l r : XMLList) :
    noNeedyL A (XMLList.xAppend l r) = (noNeedyL A l && noNeedyL A r) := by
  induction l using xlist_ind with
  | nil => simp [XMLList.xAppend, noNeedyL]
  | cons c cs ih => simp [XMLList.xAppend, noNeedyL, ih, Bool.and_assoc]

theorem noNeedyX_fillNode (A : String) : noNeedyX A (fillNode A) = true := by
  have h : (scTag A == nsTag A "rPr") = false :=
    beq_eq_false_iff_ne.2 (scTag_ne_nsTag A "rPr" (by decide) (by decide))
  simp [fillNode, noNeedyX, noNeedyL, XMLList.xAll, XMLList.xAny, synthNeeds, h]

theorem synthNeeds_synthStep (A : String) (hT : Bool) (c : XML) :
    synthNeeds A hT (synthStep A hT c) = false := by
  cases c with
  | text s => rfl
  | elem tg a cs =>
    unfold synthStep
    by_cases hn : synthNeeds A hT (.elem tg a cs) = true
    · rw [if_pos hn]
      show synthNeeds A hT
        (.elem tg a (XMLList.xAppend (synthKids A (XMLList.xAny (isTag (nsTag A "t")) cs) cs)
          (.cons (fillNode A) .nil))) = false
      have h1 : XMLList.xAny (isTag (nsTag A "solidFill")) (.cons (fillNode A) .nil) = true := by
        simp [XMLList.xAny, isTag_fillNode_sf]
      simp only [synthNeeds, xAny_xAppend, h1]
      simp
    · rw [if_neg hn]
      show synthNeeds A hT
        (.elem tg a (synthKids A (XMLList.xAny (isTag (nsTag A "t")) cs) cs)) = false
      have hn2 : synthNeeds A hT (.elem tg a cs) = false := by simpa using hn
      simp only [synthNeeds, xAny_isTag_synthKids] at hn2 ⊢
      exact hn2

end PptxBot

namespace PptxBot

/-- After the first pass of `convert`, no fill synthesis is left to do. -/
theorem synth_noNeedy (A : String) :
    (∀ x, noNeedyX A (synthX A x) = true) ∧
    (∀ cs, ∀ hT, noNeedyL A (synthKids A hT cs) = true) := by
  refine xml_mutual_ind (P := fun x => noNeedyX A (synthX A x) = true)
    (Q := fun cs => ∀ hT, noNeedyL A (synthKids A hT cs) = true) ?_ ?_ ?_ ?_
  · intro s; rfl
  · intro t a cs ih
    show noNeedyX A (.elem t a (synthKids A (XMLList.xAny (isTag (nsTag A "t")) cs) cs)) = true
    simp only [noNeedyX, xAny_isTag_synthKids, Bool.and_eq_true]
    refine ⟨?_, ih _⟩
    rw [synthKids_eq_xMap, xAll_xMap]
    exact xAll_of_pointwise (fun c => by rw [synthNeeds_synthStep]; rfl) cs
  · intro hT; rfl
  · intro c cs ihc ihl hT
    show noNeedyL A (.cons (synthStep A hT c) (synthKids A hT cs)) = true
    simp only [noNeedyL, Bool.and_eq_true]
    refine ⟨?_, ihl hT⟩
    unfold synthStep
    by_cases hn : synthNeeds A hT c = true
    · rw [if_pos hn]
      cases c with
      | text s => exact absurd hn (by simp [synthNeeds])
      | elem tg a ccs =>
        show noNeedyX A (.elem tg a
          (XMLList.xAppend (synthKids A (XMLList.xAny (isTag (nsTag A "t")) ccs) ccs)
            (.cons (fillNode A) .nil))) = true
        have ihc' := ihc
        simp only [synthX, noNeedyX, xAny_isTag_synthKids, Bool.and_eq_true] at ihc'
        have hT2 : XMLList.xAny (isTag (nsTag A "t"))
            (XMLList.xAppend (synthKids A (XMLList.xAny (isTag (nsTag A "t")) ccs) ccs)
              (.cons (fillNode A) .nil))
            = XMLList.xAny (isTag (nsTag A "t")) ccs := by
          rw [xAny_xAppend, xAny_isTag_synthKids]
          simp [XMLList.xAny, isTag_fillNode_t]
        simp only [noNeedyX, hT2, Bool.and_eq_true, xAll_xAppend, noNeedyL_xAppend]
        refine ⟨⟨ihc'.1, ?_⟩, ihc'.2, ?_⟩
        · simp [XMLList.xAll, synthNeeds_fillNode]
        · simp [noNeedyL, noNeedyX_fillNode]
    · rw [if_neg hn]
      exact ihc

/-- The first pass is the identity on trees where nothing is left to do. -/
theorem synth_fix (A : String) :
    (∀ x, noNeedyX A x = true → synthX A x = x) ∧
    (∀ cs, noNeedyL A cs = true → ∀ hT,
      XMLList.xAll (fun c => !synthNeeds A hT c) cs = true → synthKids A hT cs = cs) := by
  refine xml_mutual_ind (P := fun x => noNeedyX A x = true → synthX A x = x)
    (Q := fun cs => noNeedyL A cs = true → ∀ hT,
      XMLList.xAll (fun c => !synthNeeds A hT c) cs = true → synthKids A hT cs = cs) ?_ ?_ ?_ ?_
  · intro s _; rfl
  · intro t a cs ih h
    simp only [noNeedyX, Bool.and_eq_true] at h
    show XML.elem t a (synthKids A (XMLList.xAny (isTag (nsTag A "t")) cs) cs) = XML.elem t a cs
    rw [ih h.2 _ h.1]
  · intro _ _ _; rfl
  · intro c cs ihc ihl h hT hall
    simp only [noNeedyL, Bool.and_eq_true] at h
    simp only [XMLList.xAll, Bool.and_eq_true] at hall
    have hn : synthNeeds A hT c = false := by simpa using hall.1
    show XMLList.cons (if synthNeeds A hT c then appendFill A (synthX A c) else synthX A c)
      (synthKids A hT cs) = XMLList.cons c cs
    rw [hn]
    simp only [Bool.false_eq_true, if_false]
    rw [ihc h.1, ihl h.2 hT hall.2]

/-- The rewrite pass does not change whether a node qualifies for fill
synthesis. -/
theorem synthNeeds_rwX (A : String) (cm : ColorMap) (hT : Bool) (c : XML) :
    synthNeeds A hT (rwX A cm c) = synthNeeds A hT c := by
  cases c with
  | text s => rfl
  | elem t a cs =>
    have hx : XMLList.xAny (isTag (nsTag A "solidFill")) (rwL A cm cs)
        = XMLList.xAny (isTag (nsTag A "solidFill")) cs := by
      rw [rwL_eq_xMap, xAny_xMap]
      exact xAny_congr (fun c => isTag_rwX A "solidFill" cm (by decide) (by decide) (by decide) c) cs
    rw [rwX_elem_eq]
    by_cases ht : (t == scTag A) = true
    · cases hv : lookupA a "val" with
      | none =>
        rw [rwElem_no_val cm a _ ht hv]
        simp only [synthNeeds, hx]
      | some v =>
        cases hr : resolveRef cm v with
        | none =>
          rw [rwElem_unresolved cm a _ ht hv hr]
          simp only [synthNeeds, hx]
        | some rgb =>
          rw [rwElem_resolved cm a _ ht hv hr]
          have hteq : t = scTag A := by simpa using ht
          have h1 : (rewrittenScTag A == nsTag A "rPr") = false :=
            beq_eq_false_iff_ne.2 (rewrittenScTag_ne_nsTag A "rPr" (by decide) (by decide))
          have h2 : (scTag A == nsTag A "rPr") = false :=
            beq_eq_false_iff_ne.2 (scTag_ne_nsTag A "rPr" (by decide) (by decide))
          simp only [synthNeeds, hteq, h1, h2]
          simp
    · have ht' : (t == scTag A) = false := by simpa using ht
      rw [rwElem_not_sc cm a _ ht']
      simp only [synthNeeds, hx]

/-- `noNeedyX` only looks at an element's children, and every branch of
`rwElem` keeps the children it is given. -/
theorem noNeedyX_rwElem (A : String) (cm : ColorMap) (t : String)
    (a : List (String × String)) (cs : XMLList) :
    noNeedyX A (rwElem A cm t a cs) = noNeedyX A (.elem t a cs) := by
  unfold rwElem
  split
  · split
    · rfl
    · split
      · rfl
      · rfl
  · rfl

/-- The rewrite pass preserves the fill-synthesis invariant. -/
theorem rw_noNeedy (A : String) (cm : ColorMap) :
    (∀ x, noNeedyX A x = true → noNeedyX A (rwX A cm x) = true) ∧
    (∀ cs, noNeedyL A cs = true → noNeedyL A (rwL A cm cs) = true) := by
  refine xml_mutual_ind (P := fun x => noNeedyX A x = true → noNeedyX A (rwX A cm x) = true)
    (Q := fun cs => noNeedyL A cs = true → noNeedyL A (rwL A cm cs) = true) ?_ ?_ ?_ ?_
  · intro s _; rfl
  · intro t a cs ih h
    simp only [noNeedyX, Bool.and_eq_true] at h
    rw [rwX_elem_eq, noNeedyX_rwElem]
    have hT' : XMLList.xAny (isTag (nsTag A "t")) (rwL A cm cs)
        = XMLList.xAny (isTag (nsTag A "t")) cs := by
      rw [rwL_eq_xMap, xAny_xMap]
      exact xAny_congr (fun c => isTag_rwX A "t" cm (by decide) (by decide) (by decide) c) cs
    simp only [noNeedyX, hT', Bool.and_eq_true]
    refine ⟨?_, ih h.2⟩
    rw [rwL_eq_xMap, xAll_xMap]
    rw [xAll_congr (fun c => by rw [synthNeeds_rwX]) cs]
    exact h.1
  · intro _; rfl
  · intro c cs ihc ihl h
    simp only [noNeedyL, Bool.and_eq_true] at h
    show noNeedyL A (.cons (rwX A cm c) (rwL A cm cs)) = true
    simp only [noNeedyL, Bool.and_eq_true]
    exact ⟨ihc h.1, ihl h.2⟩

/-- The rewrite pass is idempotent on trees. -/
theorem rw_idem (A : String) (cm : ColorMap) :
    (∀ x, rwX A cm (rwX A cm x) = rwX A cm x) ∧
    (∀ cs, rwL A cm (rwL A cm cs) = rwL A cm cs) := by
  refine xml_mutual_ind (P := fun x => rwX A cm (rwX A cm x) = rwX A cm x)
    (Q := fun cs => rwL A cm (rwL A cm cs) = rwL A cm cs) ?_ ?_ ?_ ?_
  · intro s; rfl
  · intro t a cs ih
    rw [rwX_elem_eq]
    by_cases ht : (t == scTag A) = true
    · cases hv : lookupA a "val" with
      | none =>
        rw [rwElem_no_val cm a _ ht hv, rwX_elem_eq, ih, rwElem_no_val cm a _ ht hv]
      | some v =>
        cases hr : resolveRef cm v with
        | none =>
          rw [rwElem_unresolved cm a _ ht hv hr, rwX_elem_eq, ih,
            rwElem_unresolved cm a _ ht hv hr]
        | some rgb =>
          rw [rwElem_resolved cm a _ ht hv hr, rwX_elem_eq, ih]
          have hne : (rewrittenScTag A == scTag A) = false :=
            beq_eq_false_iff_ne.2 (rewrittenScTag_ne_scTag A)
          rw [rwElem_not_sc cm _ _ hne]
    · have ht' : (t == scTag A) = false := by simpa using ht
      rw [rwElem_not_sc cm a _ ht', rwX_elem_eq, ih, rwElem_not_sc cm a _ ht']
  · rfl
  · intro c cs ihc ihl
    show XMLList.cons (rwX A cm (rwX A cm c)) (rwL A cm (rwL A cm cs))
      = XMLList.cons (rwX A cm c) (rwL A cm cs)
    rw [ihc, ihl]

end PptxBot

namespace PptxBot

/-! ## What `convert` leaves behind: only unresolvable references -/

/-- The resolution `convert` performs for a `schemeClr` element with the
given attributes: `none` when the `val` attribute is missing or its
(alias-remapped) slot has no value in the map. -/
def resolveAttrVal (cm : ColorMap) (a : List (String × String)) : Option String :=
  match lookupA a "val" with
  | none => none
  | some v => resolveRef cm v

mutual
/-- Every `a:schemeClr` element remaining in the tree is unresolvable
against `cm` (missing `val` or slot not in the map). -/
def allClrX (A : String) (cm : ColorMap) : XML → Bool
  | .text _ => true
  | .elem t a cs =>
    (if t == scTag A then (resolveAttrVal cm a).isNone else true) && allClrL A cm cs

def allClrL (A : String) (cm : ColorMap) : XMLList → Bool
  | .nil => true
  | .cons c cs => allClrX A cm c && allClrL A cm cs
end

theorem allClr_rw (A : String) (cm : ColorMap) :
    (∀ x, allClrX A cm (rwX A cm x) = true) ∧
    (∀ cs, allClrL A cm (rwL A cm cs) = true) := by
  refine xml_mutual_ind (P := fun x => allClrX A cm (rwX A cm x) = true)
    (Q := fun cs => allClrL A cm (rwL A cm cs) = true) ?_ ?_ ?_ ?_
  · intro s; rfl
  · intro t a cs ih
    rw [rwX_elem_eq]
    by_cases ht : (t == scTag A) = true
    · cases hv : lookupA a "val" with
      | none =>
        rw [rwElem_no_val cm a _ ht hv]
        simp [allClrX, ht, resolveAttrVal, hv, ih]
      | some v =>
        cases hr : resolveRef cm v with
        | none =>
          rw [rwElem_unresolved cm a _ ht hv hr]
          simp [allClrX, ht, resolveAttrVal, hv, hr, ih]
        | some rgb =>
          rw [rwElem_resolved cm a _ ht hv hr]
          have hne : (rewrittenScTag A == scTag A) = false :=
            beq_eq_false_iff_ne.2 (rewrittenScTag_ne_scTag A)
          simp [allClrX, hne, ih]
    · have ht' : (t == scTag A) = false := by simpa using ht
      rw [rwElem_not_sc cm a _ ht']
      simp [allClrX, ht', ih]
  · rfl
  · intro c cs ihc ihl
    show allClrL A cm (.cons (rwX A cm c) (rwL A cm cs)) = true
    simp [allClrL, ihc, ihl]

theorem allClr_no_sc (A : String) (cm : ColorMap) :
    (∀ x, hasTagX (scTag A) x = false → allClrX A cm x = true) ∧
    (∀ cs, hasTagL (scTag A) cs = false → allClrL A cm cs = true) := by
  refine xml_mutual_ind
    (P := fun x => hasTagX (scTag A) x = false → allClrX A cm x = true)
    (Q := fun cs => hasTagL (scTag A) cs = false → allClrL A cm cs = true) ?_ ?_ ?_ ?_
  · intro s _; rfl
  · intro t a cs ih h
    simp only [hasTagX, Bool.or_eq_false_iff] at h
    simp [allClrX, h.1, ih h.2]
  · intro _; rfl
  · intro c cs ihc ihl h
    simp only [hasTagL, Bool.or_eq_false_iff] at h
    simp [allClrL, ihc h.1, ihl h.2]

theorem hasTagL_xAppend (tg : String) (l r : XMLList) :
    hasTagL tg (XMLList.xAppend l r) = (hasTagL tg l || hasTagL tg r) := by
  induction l using xlist_ind with
  | nil => simp [XMLList.xAppend, hasTagL]
  | cons c cs ih => simp [XMLList.xAppend, hasTagL, ih, Bool.or_assoc]

/-- Fill synthesis only adds elements, so any tag present before is still
present after. -/
theorem hasTag_synth_mono (A tg : String) :
    (∀ x, hasTagX tg x = true → hasTagX tg (synthX A x) = true) ∧
    (∀ cs, ∀ hT, hasTagL tg cs = true → hasTagL tg (synthKids A hT cs) = true) := by
  refine xml_mutual_ind (P := fun x => hasTagX tg x = true → hasTagX tg (synthX A x) = true)
    (Q := fun cs => ∀ hT, hasTagL tg cs = true → hasTagL tg (synthKids A hT cs) = true)
    ?_ ?_ ?_ ?_
  · intro s h; exact h
  · intro t a cs ih h
    show (t == tg || hasTagL tg (synthKids A (XMLList.xAny (isTag (nsTag A "t")) cs) cs)) = true
    simp only [hasTagX, Bool.or_eq_true] at h
    rcases h with h | h
    · simp [h]
    · simp [ih _ h]
  · intro hT h; exact h
  · intro c cs ihc ihl hT h
    show (hasTagX tg (synthStep A hT c) || hasTagL tg (synthKids A hT cs)) = true
    simp only [hasTagL, Bool.or_eq_true] at h
    rcases h with h | h
    · have hstep : hasTagX tg (synthStep A hT c) = true := by
        unfold synthStep
        by_cases hn : synthNeeds A hT c = true
        · rw [if_pos hn]
          cases c with
          | text s => simp [hasTagX] at h
          | elem t a ccs =>
            show (t == tg || hasTagL tg
              (XMLList.xAppend (synthKids A (XMLList.xAny (isTag (nsTag A "t")) ccs) ccs)
                (.cons (fillNode A) .nil))) = true
            have hx := ihc h
            simp only [synthX, hasTagX, Bool.or_eq_true] at hx
            rcases hx with hx | hx
            · simp [hx]
            · simp [hasTagL_xAppend, hx]
        · rw [if_neg hn]
          exact ihc h
      simp [hstep]
    · simp [ihl hT h]

/-! ## Unfolding `convert` -/

theorem convert_eq_none (d : SlideDoc) (cm : ColorMap)
    (h : lookupA d.nsmap "a" = none) : convert d cm = d := by
  unfold convert
  rw [h]

theorem convert_eq_some (d : SlideDoc) (cm : ColorMap) (A : String)
    (hA : lookupA d.nsmap "a" = some A) :
    convert d cm = if hasTagX (scTag A) (synthX A d.root) = true
      then ⟨d.nsmap, rwX A cm (synthX A d.root)⟩ else d := by
  unfold convert
  rw [hA]

end PptxBot

namespace PptxBot

/-! ## Concrete documents and maps used as test inputs -/

/-- The standard OOXML drawing namespace bound to prefix `a` in slides. -/
def drawNS : String := "http://schemas.openxmlformats.org/drawingml/2006/main"

/-- A fully resolved 12-slot color map (the Office theme palette). -/
def cm12 : ColorMap :=
  [("dk1", some "000000"), ("lt1", some "FFFFFF"), ("dk2", some "44546A"),
   ("lt2", some "E7E6E6"), ("accent1", some "4472C4"), ("accent2", some "ED7D31"),
   ("accent3", some "A5A5A5"), ("accent4", some "FFC000"), ("accent5", some "5B9BD5"),
   ("accent6", some "70AD47"), ("hlink", some "0563C1"), ("folHlink", some "954F72")]

/-- "Resolved color map": exactly the 12 canonical slots, each with a value
(the spec's notion of the result of resolving a well-formed theme). -/
def resolvedMap (cm : ColorMap) : Bool :=
  (cm.map Prod.fst ==
    ["dk1", "lt1", "dk2", "lt2", "accent1", "accent2", "accent3", "accent4",
     "accent5", "accent6", "hlink", "folHlink"]) && cm.all (fun p => p.2.isSome)

/-- A slide whose only drawing element is a scheme-color reference to the
placeholder slot `phClr` (a name outside the 12 scheme slots, legal in
OOXML). -/
def phClrSlide : SlideDoc :=
  ⟨[("a", drawNS)], .elem (scTag drawNS) [("val", "phClr")] .nil⟩

/-- Whether a document still contains a scheme-color reference. -/
def hasSchemeClrDoc (d : SlideDoc) : Bool :=
  match lookupA d.nsmap "a" with
  | none => false
  | some A => hasTagX (scTag A) d.root

/-- A slide part with no drawing namespace declared on the root. -/
def docNoA : SlideDoc := ⟨[("p", "PNS")], .elem (nsTag "PNS" "sld") [] .nil⟩

/-! ## Claim C1 -/

/-- **C1** (counterexample).  The claim states that for every slide document
and every resolved 12-entry color map no `schemeClr` element remains after
`convert`.  This is false: a reference naming a slot outside the map (here
`phClr`) is skipped by the `rgb is None: continue` branch and survives in
the output, even though the map is fully resolved. -/
theorem claim1_counterexample :
    resolvedMap cm12 = true ∧ hasSchemeClrDoc (convert phClrSlide cm12) = true := by
  decide

/-- **C1** (amended).  After `convert` runs, every `schemeClr` element that
remains in the returned content is unresolvable against the color map: its
`val` attribute is missing, or the alias-remapped slot name has no value in
the map.  Equivalently, every resolvable scheme-color reference (the
synthesized ones included) had its tag changed to the fixed-color tag. -/
theorem claim1_no_resolvable_schemeClr_remains (d : SlideDoc) (cm : ColorMap) (A : String)
    (hA : lookupA d.nsmap "a" = some A) :
    allClrX A cm (convert d cm).root = true := by
  rw [convert_eq_some d cm A hA]
  by_cases hsc : hasTagX (scTag A) (synthX A d.root) = true
  · rw [if_pos hsc]
    exact (allClr_rw A cm).1 _
  · rw [if_neg hsc]
    have h0 : hasTagX (scTag A) (synthX A d.root) = false := by simpa using hsc
    have h1 : hasTagX (scTag A) d.root = false := by
      by_contra hc
      have hc' : hasTagX (scTag A) d.root = true := by simpa using hc
      rw [(hasTag_synth_mono A (scTag A)).1 _ hc'] at h0
      simp at h0
    exact (allClr_no_sc A cm).1 _ h1

/-- Witness for C1 (amended) at a concrete input. -/
theorem claim1_witness :
    lookupA phClrSlide.nsmap "a" = some drawNS ∧
    allClrX drawNS cm12 (convert phClrSlide cm12).root = true :=
  ⟨by decide, claim1_no_resolvable_schemeClr_remains phClrSlide cm12 drawNS (by decide)⟩

/-! ## Claim C4 -/

/-- **C4**.  `convert` is idempotent: applying it to its own output with the
same color map returns that output unchanged.  After a first pass every
qualifying `rPr` has a fill (so synthesis does not re-trigger), rewritten
references no longer carry the scheme-color tag, and unresolvable ones are
skipped again, so the second pass changes nothing. -/
theorem claim4_convert_idempotent (d : SlideDoc) (cm : ColorMap) :
    convert (convert d cm) cm = convert d cm := by
  cases hA : lookupA d.nsmap "a" with
  | none =>
    have h1 : convert d cm = d := convert_eq_none d cm hA
    rw [h1]
    exact h1
  | some A =>
    by_cases hsc : hasTagX (scTag A) (synthX A d.root) = true
    · have hout : convert d cm = ⟨d.nsmap, rwX A cm (synthX A d.root)⟩ := by
        rw [convert_eq_some d cm A hA, if_pos hsc]
      rw [hout]
      have hnn : noNeedyX A (rwX A cm (synthX A d.root)) = true :=
        (rw_noNeedy A cm).1 _ ((synth_noNeedy A).1 d.root)
      have hfix : synthX A (rwX A cm (synthX A d.root)) = rwX A cm (synthX A d.root) :=
        (synth_fix A).1 _ hnn
      have hconv2 := convert_eq_some ⟨d.nsmap, rwX A cm (synthX A d.root)⟩ cm A hA
      rw [hfix] at hconv2
      rw [hconv2]
      by_cases hsc2 : hasTagX (scTag A) (rwX A cm (synthX A d.root)) = true
      · rw [if_pos hsc2, (rw_idem A cm).1 (synthX A d.root)]
      · rw [if_neg hsc2]
    · have hout : convert d cm = d := by
        rw [convert_eq_some d cm A hA, if_neg hsc]
      rw [hout]
      exact hout

/-! ## Claim C5 -/

/-- **C5**.  The legacy alias remap is applied unconditionally before lookup,
so for every color map a reference naming `bg1` resolves to exactly the same
value as one naming `lt1`, and likewise `tx1`/`dk1`, `bg2`/`lt2`,
`tx2`/`dk2`. -/
theorem claim5_legacy_alias_roundtrip (cm : ColorMap) :
    preMapApply "bg1" = "lt1" ∧ preMapApply "tx1" = "dk1" ∧
    preMapApply "bg2" = "lt2" ∧ preMapApply "tx2" = "dk2" ∧
    resolveRef cm "bg1" = resolveRef cm "lt1" ∧
    resolveRef cm "tx1" = resolveRef cm "dk1" ∧
    resolveRef cm "bg2" = resolveRef cm "lt2" ∧
    resolveRef cm "tx2" = resolveRef cm "dk2" :=
  ⟨rfl, rfl, rfl, rfl, rfl, rfl, rfl, rfl⟩

/-! ## Claim C9 -/

/-- **C9**.  A slide part whose root declares no `a` namespace is returned
byte-identical (the function returns its input object) for any color map. -/
theorem claim9_no_drawing_ns_unchanged (d : SlideDoc) (cm : ColorMap)
    (h : lookupA d.nsmap "a" = none) : convert d cm = d :=
  convert_eq_none d cm h

/-- Witness for C9 at a concrete input. -/
theorem claim9_witness :
    lookupA docNoA.nsmap "a" = none ∧ convert docNoA cm12 = docNoA :=
  ⟨by decide, claim9_no_drawing_ns_unchanged docNoA cm12 (by decide)⟩

end PptxBot

namespace PptxBot

/-! ## Claim C3: default-fill synthesis -/

/-- What the two passes of `convert` perform on each child of an element
whose `a:t`-child status is `hT`. -/
def pipeChild (A : String) (cm : ColorMap) (hT : Bool) (c : XML) : XML :=
  rwX A cm (synthStep A hT c)

theorem rPr_tag_ne_scTag (A : String) : (nsTag A "rPr" == scTag A) = false :=
  beq_eq_false_iff_ne.2 (nsTag_ne_nsTag A (by decide) (by decide) (by decide))

theorem sf_tag_ne_scTag (A : String) : (nsTag A "solidFill" == scTag A) = false :=
  beq_eq_false_iff_ne.2 (nsTag_ne_nsTag A (by decide) (by decide) (by decide))

theorem pipe_parent (A : String) (cm : ColorMap) (ptag : String)
    (pa : List (String × String)) (cs : XMLList)
    (hT : XMLList.xAny (isTag (nsTag A "t")) cs = true) :
    rwX A cm (synthX A (.elem ptag pa cs)) =
      rwElem A cm ptag pa (XMLList.xMap (pipeChild A cm true) cs) := by
  show rwX A cm (.elem ptag pa (synthKids A (XMLList.xAny (isTag (nsTag A "t")) cs) cs)) = _
  rw [hT, rwX_elem_eq]
  congr 1
  rw [synthKids_eq_xMap, rwL_eq_xMap, xMap_xMap]
  rfl

theorem pipe_rpr_with_t (A : String) (cm : ColorMap) (rgb : String)
    (ca : List (String × String)) (cch : XMLList)
    (hdk : lookupColor cm "dk1" = some rgb)
    (hnf : XMLList.xAny (isTag (nsTag A "solidFill")) cch = false) :
    pipeChild A cm true (.elem (nsTag A "rPr") ca cch) =
      .elem (nsTag A "rPr") ca
        (XMLList.xAppend
          (XMLList.xMap (pipeChild A cm (XMLList.xAny (isTag (nsTag A "t")) cch)) cch)
          (.cons (.elem (nsTag A "solidFill") []
            (.cons (.elem (rewrittenScTag A) [("val", rgb)] .nil) .nil)) .nil)) := by
  have hneed : synthNeeds A true (.elem (nsTag A "rPr") ca cch) = true := by
    simp [synthNeeds, hnf]
  have hstep : synthStep A true (.elem (nsTag A "rPr") ca cch)
      = appendFill A (synthX A (.elem (nsTag A "rPr") ca cch)) := by
    unfold synthStep
    rw [if_pos hneed]
  show rwX A cm (synthStep A true (.elem (nsTag A "rPr") ca cch)) = _
  rw [hstep]
  show rwX A cm (.elem (nsTag A "rPr") ca
    (XMLList.xAppend (synthKids A (XMLList.xAny (isTag (nsTag A "t")) cch) cch)
      (.cons (fillNode A) .nil))) = _
  rw [rwX_elem_eq, rwElem_not_sc cm _ _ (rPr_tag_ne_scTag A)]
  rw [rwL_xAppend]
  have h1 : rwL A cm (synthKids A (XMLList.xAny (isTag (nsTag A "t")) cch) cch)
      = XMLList.xMap (pipeChild A cm (XMLList.xAny (isTag (nsTag A "t")) cch)) cch := by
    rw [synthKids_eq_xMap, rwL_eq_xMap, xMap_xMap]
    rfl
  have h2 : rwL A cm (.cons (fillNode A) .nil)
      = XMLList.cons (.elem (nsTag A "solidFill") []
          (.cons (.elem (rewrittenScTag A) [("val", rgb)] .nil) .nil)) .nil := by
    show XMLList.cons (rwX A cm (fillNode A)) .nil = _
    congr 1
    show rwElem A cm (nsTag A "solidFill") []
      (rwL A cm (.cons (.elem (scTag A) [("val", "tx1")] .nil) .nil)) = _
    rw [rwElem_not_sc cm _ _ (sf_tag_ne_scTag A)]
    congr 1
    show XMLList.cons (rwX A cm (.elem (scTag A) [("val", "tx1")] .nil)) .nil = _
    congr 1
    rw [rwX_elem_eq]
    have ht : (scTag A == scTag A) = true := by simp
    have hv : lookupA [("val", "tx1")] "val" = some "tx1" := rfl
    have hr : resolveRef cm "tx1" = some rgb := by
      show lookupColor cm (preMapApply "tx1") = some rgb
      rw [show preMapApply "tx1" = "dk1" from rfl]
      exact hdk
    rw [rwElem_resolved cm [("val", "tx1")] (rwL A cm .nil) ht hv hr]
    rfl
  rw [h1, h2]

theorem pipe_rpr_without_t (A : String) (cm : ColorMap)
    (ca : List (String × String)) (cch : XMLList) :
    pipeChild A cm false (.elem (nsTag A "rPr") ca cch) =
      .elem (nsTag A "rPr") ca
        (XMLList.xMap (pipeChild A cm (XMLList.xAny (isTag (nsTag A "t")) cch)) cch) := by
  unfold pipeChild synthStep
  have hneed : synthNeeds A false (.elem (nsTag A "rPr") ca cch) = false := by
    simp [synthNeeds]
  rw [if_neg (by simp [hneed])]
  show rwX A cm
    (.elem (nsTag A "rPr") ca (synthKids A (XMLList.xAny (isTag (nsTag A "t")) cch) cch)) = _
  rw [rwX_elem_eq, rwElem_not_sc cm _ _ (rPr_tag_ne_scTag A)]
  congr 1
  rw [synthKids_eq_xMap, rwL_eq_xMap, xMap_xMap]
  rfl

/-- **C3**.  In any element with an `a:t` child, a child `a:rPr` lacking a
direct fill gets the synthesized `tx1` fill appended, and in the final
output that fill is the fixed-color element whose value is the map's `dk1`
entry (the `tx1` → `dk1` alias remap), its tag no longer the scheme-color
tag and with local name `srgbClr`.  A child `a:rPr` of an element without
an `a:t` child gets no synthesized fill: its children are exactly the
transforms of its original children. -/
theorem claim3_default_fill_synthesis (A : String) (cm : ColorMap) (rgb ptag : String)
    (pa ca : List (String × String)) (cs cch : XMLList)
    (hdk : lookupColor cm "dk1" = some rgb)
    (hT : XMLList.xAny (isTag (nsTag A "t")) cs = true)
    (hnf : XMLList.xAny (isTag (nsTag A "solidFill")) cch = false) :
    rwX A cm (synthX A (.elem ptag pa cs)) =
        rwElem A cm ptag pa (XMLList.xMap (pipeChild A cm true) cs) ∧
    pipeChild A cm true (.elem (nsTag A "rPr") ca cch) =
      .elem (nsTag A "rPr") ca
        (XMLList.xAppend
          (XMLList.xMap (pipeChild A cm (XMLList.xAny (isTag (nsTag A "t")) cch)) cch)
          (.cons (.elem (nsTag A "solidFill") []
            (.cons (.elem (rewrittenScTag A) [("val", rgb)] .nil) .nil)) .nil)) ∧
    pipeChild A cm false (.elem (nsTag A "rPr") ca cch) =
      .elem (nsTag A "rPr") ca
        (XMLList.xMap (pipeChild A cm (XMLList.xAny (isTag (nsTag A "t")) cch)) cch) ∧
    localName (rewrittenScTag A) = "srgbClr" ∧
    rewrittenScTag A ≠ scTag A :=
  ⟨pipe_parent A cm ptag pa cs hT, pipe_rpr_with_t A cm rgb ca cch hdk hnf,
    pipe_rpr_without_t A cm ca cch, localName_rewrittenScTag A, rewrittenScTag_ne_scTag A⟩

/-- The run children used in the C3 witness: a fill-less `rPr` and a text
element `a:t` containing Hello. -/
def claim3cs : XMLList :=
  .cons (.elem (nsTag drawNS "rPr") [("sz", "1200")] .nil)
    (.cons (.elem (nsTag drawNS "t") [] (.cons (.text "Hello") .nil)) .nil)

/-- Witness for C3 at a concrete input: in a run with text, the fill-less
`rPr` ends up with a `srgbClr` fill carrying the `dk1` value. -/
theorem claim3_witness :
    lookupColor cm12 "dk1" = some "000000" ∧
    XMLList.xAny (isTag (nsTag drawNS "t")) claim3cs = true ∧
    pipeChild drawNS cm12 true (.elem (nsTag drawNS "rPr") [("sz", "1200")] .nil) =
      .elem (nsTag drawNS "rPr") [("sz", "1200")]
        (.cons (.elem (nsTag drawNS "solidFill") []
          (.cons (.elem (nsTag drawNS "srgbClr") [("val", "000000")] .nil) .nil)) .nil) :=
  ⟨by decide, by decide,
    (claim3_default_fill_synthesis drawNS cm12 "000000" (nsTag drawNS "r") [] [("sz", "1200")]
      claim3cs .nil (by decide) (by decide) (by decide)).2.1⟩

end PptxBot

namespace PptxBot

/-! ## Errors

Python exceptions the modelled code can raise.  The last two constructors
are modelled from the spec: its section-7 taxonomy names
`MissingThemeError` and `MalformedPackageError`, but no such classes exist
anywhere in the code; they are present only so the spec's claims about them
can be stated and compared with what the code actually raises. -/

inductive PyErr where
  | keyError
  | attributeError
  | indexError
  | stopIteration
  | runtimeError
  | xmlSyntaxError
  | xpathEvalError
  | badZipFile
  | fileNotFoundError
  | missingThemeError
  | malformedPackageError
deriving DecidableEq

deriving instance DecidableEq for Except

/-! ## Theme color resolution: `webex_convert.read_color_map`

`tree.xpath('a:themeElements/a:clrScheme', namespaces=nsmap)` evaluates the
relative path against the root element; `list(color)` and `color[0]` see
only element children (lxml keeps text in `.text`, not in the child list). -/

/-- The element children of a child list, in order (lxml's iteration). -/
def elemChildren (cs : XMLList) : List XML :=
  cs.toList.filter fun c =>
    match c with
    | .elem _ _ _ => true
    | .text _ => false

/-- The child elements of a node carrying the given tag (one xpath step). -/
def childElemsWithTag (t : String) (x : XML) : List XML :=
  match x with
  | .text _ => []
  | .elem _ _ cs => (elemChildren cs).filter (isTag t)

/-- The node set of `xpath('a:themeElements/a:clrScheme')` from the root. -/
def themeClrSchemes (A : String) (root : XML) : List XML :=
  ((childElemsWithTag (nsTag A "themeElements") root).map
    (childElemsWithTag (nsTag A "clrScheme"))).flatten

/-- One slot of the scheme as `read_color_map` reads it:
`tag = color.tag.split(chr(125))[-1]` and `srgb = color[0].get('val')` —
the `val` attribute of the first element child, whatever its kind;
IndexError when the slot has no element child. -/
def colorSlotValue (color : XML) : Except PyErr (String × Option String) :=
  match color with
  | .text _ => .error .attributeError
  | .elem ctag _ cs =>
    match elemChildren cs with
    | [] => .error .indexError
    | spec :: _ =>
      match spec with
      | .elem _ sattrs _ => .ok (localName ctag, lookupA sattrs "val")
      | .text _ => .error .indexError

/-- The loop body of `read_color_map`: `rgb_map[tag] = srgb`. -/
def readSlotStep (m : ColorMap) (color : XML) : Except PyErr ColorMap :=
  match colorSlotValue color with
  | .error e => .error e
  | .ok (tag, srgb) => .ok (dictInsert m tag srgb)

/-- `webex_convert.read_color_map`: theme name and slot-to-value map.  The
value stored for a slot is the `val` attribute of its first child whatever
the child's kind — for a `sysClr` child this is the system color NAME
(e.g. `windowText`), not the `lastClr` hex value. -/
def read_color_map (theme : SlideDoc) : Except PyErr (Option String × ColorMap) :=
  match lookupA theme.nsmap "a" with
  | none => .error .xpathEvalError
  | some A =>
    match themeClrSchemes A theme.root with
    | [] => .error .indexError
    | clr_scheme :: _ =>
      match clr_scheme with
      | .text _ => .error .attributeError
      | .elem _ sattrs cs =>
        match (elemChildren cs).foldlM readSlotStep ([] : ColorMap) with
        | .error e => .error e
        | .ok rgb_map => .ok (lookupA sattrs "name", rgb_map)

/-! ## Theme color resolution: `PPTXHelper.theme_color_specs` (pptxutil)

The bs4 view of the same theme document: `soup.find('a:clrScheme')`
searches the document in preorder by prefixed name; iteration over a tag
yields all children, navigable strings included; `next(color.children)` is
the first child of any kind; a `srgbClr` spec yields its `val`, a `sysClr`
spec yields its `lastClr` with a trailing `s` marker, anything else hits
the bare `raise` (RuntimeError — there is no `UnsupportedColorKindError`
class in the code). -/

mutual
def bsFindX (t : String) : XML → Option XML
  | .text _ => none
  | .elem tg a cs => if tg == t then some (.elem tg a cs) else bsFindL t cs

def bsFindL (t : String) : XMLList → Option XML
  | .nil => none
  | .cons c cs =>
    match bsFindX t c with
    | some r => some r
    | none => bsFindL t cs
end

/-- The loop body of `theme_color_specs` for one child of the scheme. -/
def specSlotStep (m : List (String × String)) (color : XML) :
    Except PyErr (List (String × String)) :=
  match color with
  | .text _ => .error .attributeError
  | .elem ctag _ ccs =>
    match ccs.toList with
    | [] => .error .stopIteration
    | spec :: _ =>
      match spec with
      | .text _ => .error .runtimeError
      | .elem stag sattrs _ =>
        if localName stag == "srgbClr" then
          match lookupA sattrs "val" with
          | some v => .ok (dictInsert m (localName ctag) v)
          | none => .error .keyError
        else if localName stag == "sysClr" then
          match lookupA sattrs "lastClr" with
          | some v => .ok (dictInsert m (localName ctag) (v ++ "s"))
          | none => .error .keyError
        else .error .runtimeError

/-- `PPTXHelper.theme_color_specs` of `pptxutil`. -/
def theme_color_specs (doc : SlideDoc) :
    Except PyErr (String × List (String × String)) :=
  match lookupA doc.nsmap "a" with
  | none => .error .attributeError
  | some A =>
    match bsFindX (nsTag A "clrScheme") doc.root with
    | none => .error .attributeError
    | some (.text _) => .error .attributeError
    | some (.elem _ sattrs cs) =>
      match lookupA sattrs "name" with
      | none => .error .keyError
      | some scheme_name =>
        match cs.toList.foldlM specSlotStep [] with
        | .error e => .error e
        | .ok r => .ok (scheme_name, r)

/-- A scheme child whose first sub-child is an element of a kind other than
`srgbClr` or `sysClr` (the claim's unsupported color kind). -/
def badKindSlot (color : XML) : Bool :=
  match color with
  | .text _ => false
  | .elem _ _ ccs =>
    match ccs.toList with
    | [] => false
    | spec :: _ =>
      match spec with
      | .text _ => false
      | .elem stag _ _ =>
        !(localName stag == "srgbClr" || localName stag == "sysClr")

end PptxBot

namespace PptxBot

/-! ## Claim C2: system-color slots in the conversion path -/

/-- A realistic theme whose `dk1` slot uses system-color indirection with
last color `000000` (as Office themes do), and whose `lt1` slot is a fixed
color. -/
def themeSys : SlideDoc :=
  ⟨[("a", drawNS)],
   .elem (nsTag drawNS "theme") [("name", "Office Theme")]
     (.cons (.elem (nsTag drawNS "themeElements") []
       (.cons (.elem (nsTag drawNS "clrScheme") [("name", "Office")]
         (.cons (.elem (nsTag drawNS "dk1") []
           (.cons (.elem (nsTag drawNS "sysClr")
             [("val", "windowText"), ("lastClr", "000000")] .nil) .nil))
          (.cons (.elem (nsTag drawNS "lt1") []
            (.cons (.elem (nsTag drawNS "srgbClr") [("val", "FFFFFF")] .nil) .nil))
           .nil))) .nil)) .nil)⟩

/-- A slide containing one scheme-color reference to `tx1` (the legacy alias
of `dk1`). -/
def tx1Slide : SlideDoc :=
  ⟨[("a", drawNS)], .elem (scTag drawNS) [("val", "tx1")] .nil⟩

/-- **C2**.  The claim says resolving a system-color slot with last color
`000000` yields the literal `000000` for substitution.  The code instead
reads the `val` attribute of the `sysClr` child, i.e. the system color NAME
`windowText`, stores it in the color map, and writes it verbatim as the
`val` of the fixed-color element in a rewritten slide — not a hex color at
all.  The pptxutil helper `theme_color_specs` shows the intended reading:
it takes `lastClr` and yields `000000` followed by the `s` marker. -/
theorem claim2_sysclr_resolution_bug :
    read_color_map themeSys =
      .ok (some "Office", [("dk1", some "windowText"), ("lt1", some "FFFFFF")]) ∧
    lookupColor [("dk1", some "windowText"), ("lt1", some "FFFFFF")] "dk1"
      = some "windowText" ∧
    (convert tx1Slide [("dk1", some "windowText"), ("lt1", some "FFFFFF")]).root =
      .elem (nsTag drawNS "srgbClr") [("val", "windowText")] .nil ∧
    theme_color_specs themeSys = .ok ("Office", [("dk1", "000000s"), ("lt1", "FFFFFF")]) ∧
    some "windowText" ≠ some "000000" := by
  decide

/-! ## Claim C6: unsupported color kinds -/

/-- A theme whose single scheme slot (`accent1`) carries a `scrgbClr`
sub-element — a value kind the code does not support. -/
def themeBadKind : SlideDoc :=
  ⟨[("a", drawNS)],
   .elem (nsTag drawNS "theme") []
     (.cons (.elem (nsTag drawNS "themeElements") []
       (.cons (.elem (nsTag drawNS "clrScheme") [("name", "Office")]
         (.cons (.elem (nsTag drawNS "accent1") []
           (.cons (.elem (nsTag drawNS "scrgbClr")
             [("r", "0"), ("g", "0"), ("b", "0")] .nil) .nil))
          .nil)) .nil)) .nil)⟩

theorem colorSlotValue_err (c : XML) (e : PyErr)
    (h : colorSlotValue c = .error e) : e = .indexError ∨ e = .attributeError := by
  unfold colorSlotValue at h
  split at h
  · exact Or.inr (by injection h with h; exact h.symm)
  · split at h
    · exact Or.inl (by injection h with h; exact h.symm)
    · split at h
      · exact absurd h (by simp)
      · exact Or.inl (by injection h with h; exact h.symm)

theorem readSlotFold_err :
    ∀ (l : List XML) (m : ColorMap) (e : PyErr),
      l.foldlM readSlotStep m = .error e → e = .indexError ∨ e = .attributeError := by
  intro l
  induction l with
  | nil =>
    intro m e h
    rw [List.foldlM_nil] at h
    exact absurd h (fun hh => Except.noConfusion hh)
  | cons c cs ih =>
    intro m e h
    rw [List.foldlM_cons] at h
    cases hc : readSlotStep m c with
    | error e2 =>
      rw [hc] at h
      have h2 : (Except.error e2 : Except PyErr ColorMap) = Except.error e := h
      have he : e2 = e := by injection h2 with h3
      subst he
      unfold readSlotStep at hc
      cases hv : colorSlotValue c with
      | error e3 =>
        rw [hv] at hc
        have h3 : e3 = e2 := by injection hc with h4
        exact h3 ▸ colorSlotValue_err c e3 hv
      | ok p =>
        rw [hv] at hc
        exact absurd hc (by simp)
    | ok m2 =>
      rw [hc] at h
      exact ih m2 e h

/-- The conversion-path resolver can fail only with xpath, index, or
attribute errors — never with the runtime error of the bare `raise`, which
exists only in `theme_color_specs`.  An unsupported color kind is not
detected by `read_color_map`. -/
theorem read_color_map_no_kind_error (theme : SlideDoc) :
    read_color_map theme ≠ .error .runtimeError := by
  unfold read_color_map
  split
  · simp
  · split
    · simp
    · split
      · simp
      · split
        · rename_i e hsplit
          intro h
          have h2 : e = PyErr.runtimeError := by injection h with h3
          subst h2
          rcases readSlotFold_err _ _ _ hsplit with h1 | h1 <;> simp at h1
        · simp

theorem badKindSlot_step (m : List (String × String)) (color : XML)
    (h : badKindSlot color = true) : specSlotStep m color = .error .runtimeError := by
  cases color with
  | text s => simp [badKindSlot] at h
  | elem ctag cattrs ccs =>
    simp only [badKindSlot] at h
    cases hcs : ccs.toList with
    | nil => rw [hcs] at h; simp at h
    | cons spec rest =>
      rw [hcs] at h
      cases spec with
      | text s => simp at h
      | elem stag sattrs sch =>
        simp only [Bool.not_eq_true', Bool.or_eq_false_iff] at h
        simp only [specSlotStep, hcs]
        rw [if_neg (by simp [h.1]), if_neg (by simp [h.2])]

theorem specSlotFold_bad :
    ∀ (l : List XML) (m : List (String × String)),
      l.any badKindSlot = true → ∃ e, l.foldlM specSlotStep m = .error e := by
  intro l
  induction l with
  | nil => intro m h; simp at h
  | cons c cs ih =>
    intro m h
    rw [List.foldlM_cons]
    by_cases hc : badKindSlot c = true
    · exact ⟨.runtimeError, by rw [badKindSlot_step m c hc]; rfl⟩
    · have hcs : cs.any badKindSlot = true := by
        simp only [List.any_cons, Bool.or_eq_true] at h
        rcases h with h | h
        · exact absurd h hc
        · exact h
      cases hs : specSlotStep m c with
      | error e => exact ⟨e, rfl⟩
      | ok m2 =>
        obtain ⟨e, he⟩ := ih m2 hcs
        exact ⟨e, he⟩

/-- **C6** (amended).  An unrecognized slot kind is fatal only in the
pptxutil helper: if the scheme found by `theme_color_specs` contains a slot
whose first sub-element is neither `srgbClr` nor `sysClr`, that function
raises (a bare `raise`; no `UnsupportedColorKindError` class exists).  The
conversion path's `read_color_map` performs no such check — it can never
fail with that runtime error — so the conversion proceeds. -/
theorem claim6_unsupported_kind (doc : SlideDoc) (A t : String)
    (sattrs : List (String × String)) (cs : XMLList)
    (hA : lookupA doc.nsmap "a" = some A)
    (hfind : bsFindX (nsTag A "clrScheme") doc.root = some (.elem t sattrs cs))
    (hbad : cs.toList.any badKindSlot = true) :
    (∃ e, theme_color_specs doc = .error e) ∧
    read_color_map doc ≠ .error .runtimeError := by
  refine ⟨?_, read_color_map_no_kind_error doc⟩
  unfold theme_color_specs
  rw [hA]
  simp only
  rw [hfind]
  simp only
  cases hn : lookupA sattrs "name" with
  | none => exact ⟨.keyError, rfl⟩
  | some n =>
    obtain ⟨e, he⟩ := specSlotFold_bad cs.toList [] hbad
    rw [he]
    exact ⟨e, rfl⟩

end PptxBot

namespace PptxBot

/-! ## Packages and the conversion driver `convert_pptx_to_rgb` -/

/-- The content of one part of a package: a parsed XML document for parts
that the code parses, or opaque bytes for everything else. -/
inductive PartData where
  | xmlData (d : SlideDoc)
  | rawData (s : String)
deriving DecidableEq

/-- A package: named parts in archive order (`ZipFile.namelist()`). -/
abbrev Package := List (String × PartData)

/-- Opening the input archive: either yields its parts, or raises
`zipfile.BadZipFile` because the archive cannot be read. -/
inductive ZipSource where
  | ok (parts : Package)
  | corrupt
deriving DecidableEq

/-- Lexicographic code-point comparison, Python's string `<=` used by
`list.sort()`. -/
def pyChLe : List Char → List Char → Bool
  | [], _ => true
  | _ :: _, [] => false
  | c :: cs, d :: ds => if c = d then pyChLe cs ds else decide (c < d)

def pyInsertSorted (x : String) : List String → List String
  | [] => [x]
  | y :: ys => if pyChLe x.data y.data then x :: y :: ys else y :: pyInsertSorted x ys

/-- `v.sort()` on a list of strings. -/
def pySort (l : List String) : List String := l.foldr pyInsertSorted []

/-- An apostrophe, built from its code point. -/
def sq : String := String.singleton (Char.ofNat 39)

/-- Python's `str` of a list of strings, as an f-string would render
`rel.theme` when several theme relationships exist. -/
def pyListRepr (l : List String) : String :=
  "[" ++ String.intercalate ", " (l.map (fun s => sq ++ s ++ sq)) ++ "]"

/-- Parsing the presentation relationship file
(`PresentationRel.__init__` of `webex_convert`): for every element child,
read `Target` then `Type` (KeyError when absent) and keep the last path
segment of `Type`. -/
def relEntries (d : SlideDoc) : Except PyErr (List (String × String)) :=
  match d.root with
  | .text _ => .error .xmlSyntaxError
  | .elem _ _ cs =>
    (elemChildren cs).foldlM
      (fun acc child =>
        match child with
        | .text _ => .error .keyError
        | .elem _ cattrs _ =>
          match lookupA cattrs "Target" with
          | none => .error .keyError
          | some target =>
            match lookupA cattrs "Type" with
            | none => .error .keyError
            | some ty => .ok (acc ++ [(lastSlashSeg ty, target)])) []

/-- The targets collected under the `theme` relationship type, in document
order (`data['theme']`). -/
def relThemeTargets (entries : List (String × String)) : List String :=
  (entries.filter (fun p => p.1 == "theme")).map Prod.snd

/-- `f'ppt/(rel.theme)'`: AttributeError when no theme relationship was
seen; the single target when there is one; the f-string rendering of the
sorted list when there are several. -/
def themePathFromRels (entries : List (String × String)) : Except PyErr String :=
  match relThemeTargets entries with
  | [] => .error .attributeError
  | [t] => .ok ("ppt/" ++ t)
  | ts => .ok ("ppt/" ++ pyListRepr (pySort ts))

/-- The tail of `re.match(r'ppt/slides/slide(\d+).xml', file)` after the
first digit: either more digits, or one wildcard character (any but a
newline) followed by `xml`; trailing characters are allowed because
`re.match` only anchors at the start. -/
def slideTailMatch : List Char → Bool
  | [] => false
  | c :: cs => (c ≠ Char.ofNat 10 && "xml".data.isPrefixOf cs) || (c.isDigit && slideTailMatch cs)

/-- Whether `re.match(r'ppt/slides/slide(\d+).xml', file)` succeeds. -/
def slideNameMatch (s : String) : Bool :=
  let pre := "ppt/slides/slide".data
  if pre.isPrefixOf s.data then
    match s.data.drop pre.length with
    | [] => false
    | c :: cs => c.isDigit && slideTailMatch cs
  else false

/-- Modelled from the spec: the slide naming convention
`ppt/slides/slideN.xml` of claim C8, matched exactly — the full name is the
fixed prefix, one or more digits, and the literal `.xml`, nothing after. -/
def specSlideConventionName (s : String) : Bool :=
  let pre := "ppt/slides/slide".data
  pre.isPrefixOf s.data &&
    (let rest := s.data.drop pre.length
     let ds := rest.takeWhile Char.isDigit
     !ds.isEmpty && rest.drop ds.length == ".xml".data)

/-- The per-part action of the driver loop: slide-matching parts are parsed
and converted (XMLSyntaxError for non-XML content), everything else is
copied byte-for-byte. -/
def convStep (color_map : ColorMap) (p : String × PartData) :
    Except PyErr (String × PartData) :=
  if slideNameMatch p.1 then
    match p.2 with
    | .xmlData d => .ok (p.1, .xmlData (convert d color_map))
    | .rawData _ => .error .xmlSyntaxError
  else .ok p

/-- `webex_convert.convert_pptx_to_rgb`, up to writing the output archive:
open the archive, parse the presentation rels, locate the theme, read its
color map, and rewrite every part whose name matches the slide pattern.
The output parts keep the input's names and order. -/
def convert_parts (parts : Package) : Except PyErr Package :=
  match lookupA parts "ppt/_rels/presentation.xml.rels" with
    | none => .error .keyError
    | some (.rawData _) => .error .xmlSyntaxError
    | some (.xmlData relsDoc) =>
      match relEntries relsDoc with
      | .error e => .error e
      | .ok entries =>
        match themePathFromRels entries with
        | .error e => .error e
        | .ok theme_name =>
          match lookupA parts theme_name with
          | none => .error .keyError
          | some (.rawData _) => .error .xmlSyntaxError
          | some (.xmlData themeDoc) =>
            match read_color_map themeDoc with
            | .error e => .error e
            | .ok (_, color_map) => parts.mapM (convStep color_map)

/-- The same, from the opened archive. -/
def convert_pptx_to_rgb (src : ZipSource) : Except PyErr Package :=
  match src with
  | .corrupt => .error .badZipFile
  | .ok parts => convert_parts parts

/-- A file system mapping paths to archive contents. -/
abbrev FileSys := List (String × ZipSource)

/-- The whole of `convert_pptx_to_rgb` including its effect on the file
system: the input archive is read and every part converted inside the first
`with` block; only after that block succeeds is the output archive opened
for writing and filled.  On any error the file system is untouched. -/
def convert_pptx_file (fs : FileSys) (input_file output_file : String) :
    FileSys × Option PyErr :=
  match lookupA fs input_file with
  | none => (fs, some .fileNotFoundError)
  | some src =>
    match convert_pptx_to_rgb src with
    | .error e => (fs, some e)
    | .ok parts => (dictInsert fs output_file (.ok parts), none)

end PptxBot

namespace PptxBot

/-! ## Claim C6, concrete side -/

/-- The children of the bad theme's scheme (one `accent1` slot of an
unsupported kind). -/
def badSlotKids : XMLList :=
  .cons (.elem (nsTag drawNS "accent1") []
    (.cons (.elem (nsTag drawNS "scrgbClr") [("r", "0"), ("g", "0"), ("b", "0")] .nil) .nil))
    .nil

/-- A presentation relationship file with a single theme relationship. -/
def relsTheme : SlideDoc :=
  ⟨[], .elem "Relationships" []
    (.cons (.elem "Relationship"
      [("Id", "rId1"),
       ("Type", "http://schemas.openxmlformats.org/officeDocument/2006/relationships/theme"),
       ("Target", "theme/theme1.xml")] .nil) .nil)⟩

/-- A slide referencing `accent1`. -/
def accent1Slide : SlideDoc :=
  ⟨[("a", drawNS)], .elem (scTag drawNS) [("val", "accent1")] .nil⟩

/-- A package whose theme has the unsupported slot kind. -/
def pkgBadKind : Package :=
  [("ppt/_rels/presentation.xml.rels", .xmlData relsTheme),
   ("ppt/theme/theme1.xml", .xmlData themeBadKind),
   ("ppt/slides/slide1.xml", .xmlData accent1Slide)]

/-- **C6** (counterexample).  On a theme with an unsupported slot kind,
the conversion path's resolver succeeds — it stores the absent `val`
attribute as the slot's (empty) value — and the whole conversion proceeds
to completion; only the pptxutil helper raises, and what it raises is the
bare-raise RuntimeError, not an `UnsupportedColorKindError`. -/
theorem claim6_counterexample :
    read_color_map themeBadKind = .ok (some "Office", [("accent1", none)]) ∧
    theme_color_specs themeBadKind = .error .runtimeError ∧
    convert_pptx_to_rgb (.ok pkgBadKind) = .ok pkgBadKind := by
  decide

/-- Witness for C6 (amended) at the concrete bad theme. -/
theorem claim6_witness :
    lookupA themeBadKind.nsmap "a" = some drawNS ∧
    bsFindX (nsTag drawNS "clrScheme") themeBadKind.root =
      some (.elem (nsTag drawNS "clrScheme") [("name", "Office")] badSlotKids) ∧
    badSlotKids.toList.any badKindSlot = true ∧
    ((∃ e, theme_color_specs themeBadKind = .error e) ∧
      read_color_map themeBadKind ≠ .error .runtimeError) :=
  ⟨by decide, by decide, by decide,
    claim6_unsupported_kind themeBadKind drawNS (nsTag drawNS "clrScheme") [("name", "Office")]
      badSlotKids (by decide) (by decide) (by decide)⟩

/-! ## Claim C7 -/

/-- A presentation relationship file without any theme relationship. -/
def relsNoTheme : SlideDoc :=
  ⟨[], .elem "Relationships" []
    (.cons (.elem "Relationship"
      [("Id", "rId1"),
       ("Type", "http://schemas.openxmlformats.org/officeDocument/2006/relationships/slideMaster"),
       ("Target", "slideMasters/slideMaster1.xml")] .nil) .nil)⟩

/-- A package whose presentation relationships contain no theme target. -/
def pkgNoTheme : Package :=
  [("[Content_Types].xml", .rawData "types"),
   ("ppt/presentation.xml", .rawData "pres"),
   ("ppt/_rels/presentation.xml.rels", .xmlData relsNoTheme)]

/-- **C7** (counterexample).  Neither `MissingThemeError` nor
`MalformedPackageError` exists in the code.  On a package with no theme
relationship the driver fails with Python's AttributeError (`rel.theme` is
unset), and on an unreadable archive with `zipfile.BadZipFile` — failures
of the kinds the claim describes, but not the named exception classes. -/
theorem claim7_counterexample :
    convert_pptx_to_rgb (.ok pkgNoTheme) = .error .attributeError ∧
    PyErr.attributeError ≠ PyErr.missingThemeError ∧
    convert_pptx_to_rgb .corrupt = .error .badZipFile ∧
    PyErr.badZipFile ≠ PyErr.malformedPackageError := by
  decide

/-- **C7** (amended).  For every package whose presentation relationship
file parses but yields no theme target, the driver fails with
AttributeError; for an archive that cannot be opened it fails with
BadZipFile.  In both cases no output is produced. -/
theorem claim7_missing_theme_and_bad_zip :
    (∀ (parts : Package) (relsDoc : SlideDoc) (entries : List (String × String)),
      lookupA parts "ppt/_rels/presentation.xml.rels" = some (.xmlData relsDoc) →
      relEntries relsDoc = .ok entries →
      relThemeTargets entries = [] →
      convert_pptx_to_rgb (.ok parts) = .error .attributeError) ∧
    convert_pptx_to_rgb .corrupt = .error .badZipFile := by
  constructor
  · intro parts relsDoc entries h1 h2 h3
    simp only [convert_pptx_to_rgb, convert_parts, h1, h2, themePathFromRels, h3]
  · rfl

/-- Witness for C7 (amended) at the concrete package. -/
theorem claim7_witness :
    lookupA pkgNoTheme "ppt/_rels/presentation.xml.rels" = some (.xmlData relsNoTheme) ∧
    relEntries relsNoTheme = .ok [("slideMaster", "slideMasters/slideMaster1.xml")] ∧
    relThemeTargets [("slideMaster", "slideMasters/slideMaster1.xml")] = [] ∧
    convert_pptx_to_rgb (.ok pkgNoTheme) = .error .attributeError :=
  ⟨by decide, by decide, by decide,
    claim7_missing_theme_and_bad_zip.1 pkgNoTheme relsNoTheme
      [("slideMaster", "slideMasters/slideMaster1.xml")] (by decide) (by decide) (by decide)⟩

end PptxBot

namespace PptxBot

/-! ## Claim C8 -/

theorem convStep_fst (cm : ColorMap) (p q : String × PartData)
    (h : convStep cm p = .ok q) : q.1 = p.1 := by
  unfold convStep at h
  split at h
  · split at h
    · injection h with h2
      rw [← h2]
    · exact absurd h (fun hh => Except.noConfusion hh)
  · injection h with h2
    rw [← h2]

theorem convStep_nonslide (cm : ColorMap) (p : String × PartData)
    (h : slideNameMatch p.1 = false) : convStep cm p = .ok p := by
  unfold convStep
  rw [if_neg (by simp [h])]

theorem mapM_convStep :
    ∀ (parts : Package) (out : Package) (cm : ColorMap),
      parts.mapM (convStep cm) = .ok out →
      out.map Prod.fst = parts.map Prod.fst ∧
      ∀ (i : Nat) (p : String × PartData), parts[i]? = some p →
        slideNameMatch p.1 = false → out[i]? = some p := by
  intro parts
  induction parts with
  | nil =>
    intro out cm h
    rw [List.mapM_nil] at h
    have h2 : ([] : Package) = out := by
      have h3 : (Except.ok ([] : Package) : Except PyErr Package) = Except.ok out := h
      injection h3 with h4
    subst h2
    exact ⟨rfl, fun i p hget _ => by simp at hget⟩
  | cons p rest ih =>
    intro out cm h
    rw [List.mapM_cons] at h
    cases hq : convStep cm p with
    | error e =>
      rw [hq] at h
      exact absurd h (fun hh => Except.noConfusion hh)
    | ok q =>
      rw [hq] at h
      cases hqs : rest.mapM (convStep cm) with
      | error e =>
        rw [hqs] at h
        exact absurd h (fun hh => Except.noConfusion hh)
      | ok qs =>
        rw [hqs] at h
        have h3 : (Except.ok (q :: qs) : Except PyErr Package) = Except.ok out := h
        have h4 : q :: qs = out := by injection h3 with h5
        subst h4
        obtain ⟨ih1, ih2⟩ := ih qs cm hqs
        constructor
        · simp only [List.map_cons, ih1, convStep_fst cm p q hq]
        · intro i pp hget hns
          cases i with
          | zero =>
            have hpp : p = pp := by simpa using hget
            subst hpp
            have hok : convStep cm p = .ok p := convStep_nonslide cm p hns
            have hqp : q = p := by
              rw [hok] at hq
              injection hq with h6
              exact h6.symm
            simp [hqp]
          | succ n => simpa using ih2 n pp (by simpa using hget) hns

/-- **C8** (amended).  Whenever the driver succeeds, the output package has
exactly the input's part names, in the input's order; and every part whose
name does not match the code's (unanchored, dot-wildcard) slide pattern is
copied byte-for-byte unchanged to the same position. -/
theorem claim8_part_names_preserved (parts out : Package)
    (h : convert_pptx_to_rgb (.ok parts) = .ok out) :
    out.map Prod.fst = parts.map Prod.fst ∧
    ∀ (i : Nat) (p : String × PartData), parts[i]? = some p →
      slideNameMatch p.1 = false → out[i]? = some p := by
  replace h : convert_parts parts = .ok out := h
  unfold convert_parts at h
  repeat (split at h <;> try exact absurd h (fun hh => Except.noConfusion hh))
  exact mapM_convStep parts out _ h

/-- A minimal theme with a single `lt1` fixed-color slot. -/
def themeMini : SlideDoc :=
  ⟨[("a", drawNS)],
   .elem (nsTag drawNS "theme") []
     (.cons (.elem (nsTag drawNS "themeElements") []
       (.cons (.elem (nsTag drawNS "clrScheme") [("name", "Office")]
         (.cons (.elem (nsTag drawNS "lt1") []
           (.cons (.elem (nsTag drawNS "srgbClr") [("val", "FFFFFF")] .nil) .nil)) .nil))
        .nil)) .nil)⟩

/-- A slide referencing `lt1`. -/
def lt1Slide : SlideDoc :=
  ⟨[("a", drawNS)], .elem (scTag drawNS) [("val", "lt1")] .nil⟩

/-- The same slide after conversion: the reference became a fixed color. -/
def lt1SlideOut : SlideDoc :=
  ⟨[("a", drawNS)], .elem (nsTag drawNS "srgbClr") [("val", "FFFFFF")] .nil⟩

/-- A valid-looking package that also contains a part named
`ppt/slides/slide1Axml`: not the `ppt/slides/slideN.xml` convention, yet it
matches the code's unanchored pattern (`.` matches `A`, trailing text is
allowed by `re.match`). -/
def pkgWeird : Package :=
  [("[Content_Types].xml", .rawData "ct"),
   ("_rels/.rels", .rawData "rr"),
   ("ppt/presentation.xml", .rawData "pres"),
   ("ppt/_rels/presentation.xml.rels", .xmlData relsTheme),
   ("ppt/theme/theme1.xml", .xmlData themeMini),
   ("ppt/slides/slide1.xml", .xmlData lt1Slide),
   ("ppt/slides/slide1Axml", .xmlData lt1Slide)]

/-- The driver's output on `pkgWeird`: both slide-pattern parts rewritten. -/
def pkgWeirdOut : Package :=
  [("[Content_Types].xml", .rawData "ct"),
   ("_rels/.rels", .rawData "rr"),
   ("ppt/presentation.xml", .rawData "pres"),
   ("ppt/_rels/presentation.xml.rels", .xmlData relsTheme),
   ("ppt/theme/theme1.xml", .xmlData themeMini),
   ("ppt/slides/slide1.xml", .xmlData lt1SlideOut),
   ("ppt/slides/slide1Axml", .xmlData lt1SlideOut)]

/-- **C8** (counterexample).  The part `ppt/slides/slide1Axml` does not
match the slide naming convention `ppt/slides/slideN.xml`, yet the driver
rewrites its content, so the claim that every part whose path does not
match the convention is copied byte-for-byte unchanged is false. -/
theorem claim8_counterexample :
    specSlideConventionName "ppt/slides/slide1Axml" = false ∧
    convert_pptx_to_rgb (.ok pkgWeird) = .ok pkgWeirdOut ∧
    lookupA pkgWeirdOut "ppt/slides/slide1Axml" ≠ lookupA pkgWeird "ppt/slides/slide1Axml" := by
  decide

/-- Witness for C8 (amended) at the concrete package. -/
theorem claim8_witness :
    convert_pptx_to_rgb (.ok pkgWeird) = .ok pkgWeirdOut ∧
    pkgWeirdOut.map Prod.fst = pkgWeird.map Prod.fst ∧
    pkgWeirdOut[2]? = some ("ppt/presentation.xml", .rawData "pres") :=
  ⟨by decide,
   (claim8_part_names_preserved pkgWeird pkgWeirdOut (by decide)).1,
   (claim8_part_names_preserved pkgWeird pkgWeirdOut (by decide)).2 2
     ("ppt/presentation.xml", .rawData "pres") (by decide) (by decide)⟩

/-! ## Claim C10 -/

/-- **C10**.  If any step of the conversion fails — unreadable archive,
missing relationship file, missing theme, theme parse failure, or an error
while rewriting a slide — the file system is unchanged: the output path is
written only after every part has been read and every slide converted. -/
theorem claim10_no_output_on_error (fs : FileSys) (inp outp : String)
    (h : ((convert_pptx_file fs inp outp).2).isSome = true) :
    (convert_pptx_file fs inp outp).1 = fs := by
  unfold convert_pptx_file at h ⊢
  cases hl : lookupA fs inp with
  | none => rfl
  | some src =>
    rw [hl] at h
    show (match convert_pptx_to_rgb src with
      | Except.error e => (fs, some e)
      | Except.ok parts => (dictInsert fs outp (ZipSource.ok parts), none)).1 = fs
    have h2 : (match convert_pptx_to_rgb src with
      | Except.error e => (fs, some e)
      | Except.ok parts => (dictInsert fs outp (ZipSource.ok parts), none)).2.isSome
        = true := h
    cases hc : convert_pptx_to_rgb src with
    | error e => rfl
    | ok parts =>
      rw [hc] at h2
      exact Bool.noConfusion h2

/-- Witness for C10: a corrupt input archive leaves the file system
untouched. -/
theorem claim10_witness :
    ((convert_pptx_file [("in.pptx", ZipSource.corrupt)] "in.pptx" "out.pptx").2).isSome
      = true ∧
    (convert_pptx_file [("in.pptx", ZipSource.corrupt)] "in.pptx" "out.pptx").1
      = [("in.pptx", ZipSource.corrupt)] :=
  ⟨by decide, claim10_no_output_on_error [("in.pptx", ZipSource.corrupt)] "in.pptx" "out.pptx"
    (by decide)⟩

end PptxBot
